import Mathlib

/-!
Verification development for the rust-bulletml runtime core.

Shallow embedding of the expression evaluator (src/data/expression),
the compilation pass (src/run/compile.rs, src/run/util.rs), the tree
zipper (src/run/zipper.rs) and the per-tick runner (src/run/runner.rs).

Modelling conventions:
- the f32 value type of the source is modelled by the rationals; all
  values appearing in the claims are exactly representable and the
  operations involved are exact on them;
- NaN has no rational counterpart, so the one NaN test of the source
  (Repeat count computation) is modelled by an explicit boolean flag;
- fallible operations return Option or Except;
- recursion that is not structural in the source (table driven
  compilation, the runner loop) is modelled with an explicit fuel
  parameter; all claims are settled either at concrete inputs where
  the fuel is visibly sufficient or by statements independent of fuel.
-/

namespace Bulletml

/-- The value type of expressions, f32 in the source, modelled by the rationals. -/
abbrev Value := ℚ

/-- Truncation toward zero, the semantics of a float to integer cast in Rust. -/
def ratTrunc (q : ℚ) : ℤ :=
  if q < 0 then ⌈q⌉ else ⌊q⌋

/-- The Rust remainder operator on floats: sign follows the dividend.
For a zero divisor the source produces NaN; no claim exercises that case. -/
def rustRem (l r : ℚ) : ℚ :=
  l - r * (ratTrunc (l / r) : ℚ)

/-- The cast used as (x.ceil() as u32) in the source: negative values clamp to zero. -/
def ceilU32 (q : ℚ) : ℕ :=
  (⌈q⌉).toNat

/-- Variables of the expression language, ast.rs ExprVar. -/
inductive ExprVar where
  | Rank
  | Rand
  | Named (name : String)
deriving DecidableEq, Repr

/-- ast.rs UnaryOp. -/
inductive UnaryOp where
  | Negate
deriving DecidableEq, Repr

/-- ast.rs BinaryOp. -/
inductive BinaryOp where
  | Add
  | Sub
  | Mul
  | Div
  | Mod
deriving DecidableEq, Repr

/-- ast.rs UnaryOp::eval. -/
def UnaryOp.eval : UnaryOp → Value → Value
  | .Negate, v => -v

/-- ast.rs BinaryOp::eval. -/
def BinaryOp.eval : BinaryOp → Value → Value → Value
  | .Add, l, r => l + r
  | .Sub, l, r => l - r
  | .Mul, l, r => l * r
  | .Div, l, r => l / r
  | .Mod, l, r => rustRem l r

/-- ast.rs Expr, the expression AST. -/
inductive Expr where
  | Unary (op : UnaryOp) (expr : Expr)
  | Binary (op : BinaryOp) (lhs : Expr) (rhs : Expr)
  | Float (v : Value)
  | Var (v : ExprVar)
deriving DecidableEq, Repr

namespace Expr

/-- ast.rs Expr::constant_value. -/
def constant_value : Expr → Option Value
  | .Float v => some v
  | _ => none

/-- ast.rs Expr::constant_fold. -/
def constant_fold : Expr → Expr
  | .Unary o e =>
    let ne := e.constant_fold
    match ne.constant_value with
    | some v => .Float (o.eval v)
    | none => .Unary o ne
  | .Binary o l r =>
    let nl := l.constant_fold
    let nr := r.constant_fold
    match nl.constant_value, nr.constant_value with
    | some lv, some rv => .Float (o.eval lv rv)
    | _, _ => .Binary o nl nr
  | e => e

/-- Whether an expression contains no variable references; this is the
spec notion used to state the folding claim, not a source function. -/
def varFree : Expr → Bool
  | .Float _ => true
  | .Var _ => false
  | .Unary _ e => varFree e
  | .Binary _ l r => varFree l && varFree r

/-- The arithmetic result of an expression, with variables given a junk
value; only used on variable free expressions. -/
def evalConst : Expr → Value
  | .Float v => v
  | .Var _ => 0
  | .Unary o e => o.eval (evalConst e)
  | .Binary o l r => o.eval (evalConst l) (evalConst r)

end Expr

/-! ## Expression grammar, grammar.rs

The PEG grammar is embedded as a recursive descent parser over a list of
characters, with a fuel parameter bounding the expression nesting.  The
ordered choice of the PEG and the backtracking of the precedence climber
are reproduced directly. -/

/-- grammar.rs whitespace: space and horizontal tab. -/
def isWs (c : Char) : Bool :=
  c = ' ' || c = '\t'

/-- The grammar rule for trailing whitespace consumption. -/
def skipWs (s : List Char) : List Char :=
  s.dropWhile isWs

def isDigitCh (c : Char) : Bool :=
  '0' ≤ c && c ≤ '9'

/-- grammar.rs varname character class, A-Z a-z underscore. -/
def isIdentCh (c : Char) : Bool :=
  ('a' ≤ c && c ≤ 'z') || ('A' ≤ c && c ≤ 'Z') || c = '_'

def digitsToNat (l : List Char) : ℕ :=
  l.foldl (fun a c => 10 * a + (c.toNat - '0'.toNat)) 0

/-- The value of a fractional digit string. -/
def fracValue (l : List Char) : ℚ :=
  (digitsToNat l : ℚ) / ((10 : ℚ) ^ l.length)

/-- A single character token followed by whitespace consumption. -/
def tok (c : Char) (s : List Char) : Option (List Char) :=
  match s with
  | c' :: rest => if c' = c then some (skipWs rest) else none
  | [] => none

/-- grammar.rs literal rule: digits dot digits, dot digits, or digits. -/
def parseLiteral (s : List Char) : Option (Value × List Char) :=
  match s.span isDigitCh with
  | ([], rest) =>
    match rest with
    | '.' :: r2 =>
      match r2.span isDigitCh with
      | ([], _) => none
      | (frac, r3) => some (fracValue frac, skipWs r3)
    | _ => none
  | (intPart, rest) =>
    match rest with
    | '.' :: r2 =>
      let (frac, r3) := r2.span isDigitCh
      some ((digitsToNat intPart : ℚ) + fracValue frac, skipWs r3)
    | _ => some ((digitsToNat intPart : ℚ), skipWs rest)

/-- grammar.rs varname: the reserved names rank and rand, otherwise named. -/
def mkVar (name : List Char) : ExprVar :=
  if String.mk name = "rank" then .Rank
  else if String.mk name = "rand" then .Rand
  else .Named (String.mk name)

/-- grammar.rs identifier rule: a dollar sign then a name. -/
def parseVarRef (s : List Char) : Option (Expr × List Char) :=
  match s with
  | '$' :: r =>
    match r.span isIdentCh with
    | ([], _) => none
    | (name, r2) => some (.Var (mkVar name), skipWs r2)
  | _ => none

/-- Try to read one operator of the given level. -/
def tryOps (ops : List (Char × BinaryOp)) (s : List Char) : Option (BinaryOp × List Char) :=
  match s with
  | c :: rest =>
    match ops.lookup c with
    | some op => some (op, skipWs rest)
    | none => none
  | [] => none

def addOps : List (Char × BinaryOp) := [('+', .Add), ('-', .Sub)]

def mulOps : List (Char × BinaryOp) := [('*', .Mul), ('/', .Div), ('%', .Mod)]

mutual

/-- grammar.rs expression: the precedence climber with a simple
expression fallback.  Every recursive call decrements the fuel so the
definitions reduce structurally; the entry point supplies fuel well
above the worst case need of the input length. -/
def parseExpr : ℕ → List Char → Option (Expr × List Char)
  | 0, _ => none
  | fuel + 1, s =>
    match parseMul fuel s with
    | none => none
    | some (e, s1) => parseAddChain fuel e s1

/-- The additive level of the precedence climber, left associative; a
failing right operand backtracks to before the operator. -/
def parseAddChain : ℕ → Expr → List Char → Option (Expr × List Char)
  | 0, acc, s => some (acc, s)
  | fuel + 1, acc, s =>
    match tryOps addOps s with
    | none => some (acc, s)
    | some (op, s1) =>
      match parseMul fuel s1 with
      | none => some (acc, s)
      | some (rhs, s2) => parseAddChain fuel (.Binary op acc rhs) s2

/-- The multiplicative level of the precedence climber. -/
def parseMul : ℕ → List Char → Option (Expr × List Char)
  | 0, _ => none
  | fuel + 1, s =>
    match parseAtom fuel s with
    | none => none
    | some (e, s1) => parseMulChain fuel e s1

def parseMulChain : ℕ → Expr → List Char → Option (Expr × List Char)
  | 0, acc, s => some (acc, s)
  | fuel + 1, acc, s =>
    match tryOps mulOps s with
    | none => some (acc, s)
    | some (op, s1) =>
      match parseAtom fuel s1 with
      | none => some (acc, s)
      | some (rhs, s2) => parseMulChain fuel (.Binary op acc rhs) s2

/-- grammar.rs simple_expression: parenthesised expression, unary
negation of a full expression, literal, or variable, in PEG order. -/
def parseAtom : ℕ → List Char → Option (Expr × List Char)
  | 0, _ => none
  | fuel + 1, s =>
    match tok '(' s with
    | some s1 =>
      match parseExpr fuel s1 with
      | some (e, s2) =>
        match tok ')' s2 with
        | some s3 => some (e, s3)
        | none => parseAtomRest fuel s
      | none => parseAtomRest fuel s
    | none => parseAtomRest fuel s

/-- The alternatives of simple_expression after the parenthesis case. -/
def parseAtomRest : ℕ → List Char → Option (Expr × List Char)
  | 0, _ => none
  | fuel + 1, s =>
    match tok '-' s with
    | some s1 =>
      match parseExpr fuel s1 with
      | some (e, s2) => some (.Unary .Negate e, s2)
      | none => parseAtomLeaf s
    | none => parseAtomLeaf s

/-- Literal or variable, the two leaf alternatives. -/
def parseAtomLeaf (s : List Char) : Option (Expr × List Char) :=
  match parseLiteral s with
  | some (v, s1) => some (.Float v, s1)
  | none => parseVarRef s

end

/-- grammar.rs expression entry point: the whole input must be consumed. -/
def grammarParse (s : String) : Option Expr :=
  match parseExpr (5 * s.length + 5) s.toList with
  | some (e, []) => some e
  | _ => none

/-- expression/mod.rs Expression: a parsed expression. -/
structure Expression where
  expr : Expr
deriving DecidableEq, Repr

/-- expression/mod.rs Expression::parse: parse then constant fold. -/
def Expression.parse (s : String) : Option Expression :=
  (grammarParse s).map (fun e => ⟨e.constant_fold⟩)

/-! ## Data entities, data/data.rs

Source entity types carry a D prefix; compiled entity types of
run/compile.rs carry a C prefix.  Rc shared handles are modelled by
plain values, which is faithful because the entities are immutable. -/

/-- data.rs Orientation. -/
inductive Orientation where
  | None
  | Vertical
  | Horizontal
deriving DecidableEq, Repr

/-- data.rs Orientation::up. -/
def Orientation.up (o : Orientation) (dir : Value) : Value :=
  match o with
  | .Horizontal => dir - 90
  | _ => dir

/-- data.rs Change. -/
inductive Change where
  | Absolute
  | Relative
  | Sequence
deriving DecidableEq, Repr

/-- data.rs Change::modify. -/
def Change.modify (c : Change) (value current duration : Value) : Value :=
  match c with
  | .Absolute => value
  | .Relative => value + current
  | .Sequence => value * duration + current

/-- data.rs DirectionKind. -/
inductive DirectionKind where
  | Aim
  | Absolute
  | Relative
  | Sequence
deriving DecidableEq, Repr

/-- data.rs Direction. -/
structure Direction where
  kind : DirectionKind
  degrees : Expression
deriving DecidableEq, Repr

/-- data.rs Speed. -/
structure Speed where
  kind : Change
  change : Expression
deriving DecidableEq, Repr

/-- data.rs Term. -/
structure Term where
  value : Expression
deriving DecidableEq, Repr

/-- data.rs Times. -/
structure Times where
  value : Expression
deriving DecidableEq, Repr

/-- data.rs Wait. -/
structure Wait where
  frames : Expression
deriving DecidableEq, Repr

/-- data.rs Horizontal. -/
structure Horizontal where
  kind : Change
  change : Expression
deriving DecidableEq, Repr

/-- data.rs Vertical. -/
structure Vertical where
  kind : Change
  change : Expression
deriving DecidableEq, Repr

/-- data.rs Accel. -/
structure Accel where
  horizontal : Option Horizontal
  vertical : Option Vertical
  duration : Term
deriving DecidableEq, Repr

/-- data.rs ChangeDirection. -/
structure ChangeDirection where
  direction : Direction
  value : Term
deriving DecidableEq, Repr

/-- data.rs ChangeSpeed. -/
structure ChangeSpeed where
  speed : Speed
  value : Term
deriving DecidableEq, Repr

/-- data.rs Reference: a label plus forwarded parameters. -/
structure Reference where
  label : String
  params : List Expression
deriving DecidableEq, Repr

/-- data.rs EntityRef. -/
inductive EntityRef (T : Type) where
  | Ref (r : Reference)
  | Real (t : T)
deriving DecidableEq, Repr

/-- A named reference without parameters, a common shorthand below. -/
def refTo {T : Type} (label : String) : EntityRef T :=
  .Ref ⟨label, []⟩

mutual

/-- data.rs Step. -/
inductive DStep where
  | Repeat (r : DRepeat)
  | Fire (f : EntityRef DFire)
  | ChangeSpeed (cs : ChangeSpeed)
  | ChangeDirection (cd : ChangeDirection)
  | Accel (a : Accel)
  | Wait (w : Wait)
  | Vanish
  | Action (a : EntityRef DAction)

/-- data.rs Action. -/
inductive DAction where
  | mk (label : Option String) (steps : List DStep)

/-- data.rs Bullet. -/
inductive DBullet where
  | mk (label : Option String) (direction : Option Direction) (speed : Option Speed)
      (actions : List (EntityRef DAction))

/-- data.rs Fire. -/
inductive DFire where
  | mk (label : Option String) (direction : Option Direction) (speed : Option Speed)
      (bullet : EntityRef DBullet)

/-- data.rs Repeat. -/
inductive DRepeat where
  | mk (times : Times) (actions : List (EntityRef DAction))

end

def DAction.label : DAction → Option String
  | .mk l _ => l

def DAction.steps : DAction → List DStep
  | .mk _ s => s

def DBullet.label : DBullet → Option String
  | .mk l _ _ _ => l

def DBullet.direction : DBullet → Option Direction
  | .mk _ d _ _ => d

def DBullet.speed : DBullet → Option Speed
  | .mk _ _ s _ => s

def DBullet.actions : DBullet → List (EntityRef DAction)
  | .mk _ _ _ a => a

def DFire.label : DFire → Option String
  | .mk l _ _ _ => l

def DFire.direction : DFire → Option Direction
  | .mk _ d _ _ => d

def DFire.speed : DFire → Option Speed
  | .mk _ _ s _ => s

def DFire.bullet : DFire → EntityRef DBullet
  | .mk _ _ _ b => b

def DRepeat.times : DRepeat → Times
  | .mk t _ => t

def DRepeat.actions : DRepeat → List (EntityRef DAction)
  | .mk _ a => a

/-- data.rs Element. -/
inductive Element where
  | Bullet (b : DBullet)
  | Action (a : DAction)
  | Fire (f : DFire)

/-- data.rs BulletML, the top level data entity. -/
structure DBulletML where
  orientation : Orientation
  elements : List Element

/-! ## Compiled entities, run/compile.rs -/

mutual

/-- compile.rs Step, the compiled step sum. -/
inductive CStep where
  | Repeat (r : CRepeat)
  | Fire (f : CFire)
  | ChangeSpeed (cs : ChangeSpeed)
  | ChangeDirection (cd : ChangeDirection)
  | Accel (a : Accel)
  | Wait (w : Wait)
  | Vanish
  | Action (a : CAction)

/-- compile.rs Action. -/
inductive CAction where
  | mk (steps : List CStep)

/-- compile.rs Bullet. -/
inductive CBullet where
  | mk (direction : Option Direction) (speed : Option Speed) (actions : List CAction)

/-- compile.rs Fire. -/
inductive CFire where
  | mk (direction : Option Direction) (speed : Option Speed) (bullet : CBullet)

/-- compile.rs Repeat. -/
inductive CRepeat where
  | mk (times : Times) (actions : List CAction)

end

def CAction.steps : CAction → List CStep
  | .mk s => s

def CBullet.direction : CBullet → Option Direction
  | .mk d _ _ => d

def CBullet.speed : CBullet → Option Speed
  | .mk _ s _ => s

def CBullet.actions : CBullet → List CAction
  | .mk _ _ a => a

def CFire.direction : CFire → Option Direction
  | .mk d _ _ => d

def CFire.speed : CFire → Option Speed
  | .mk _ s _ => s

def CFire.bullet : CFire → CBullet
  | .mk _ _ b => b

def CRepeat.times : CRepeat → Times
  | .mk t _ => t

def CRepeat.actions : CRepeat → List CAction
  | .mk _ a => a

/-- compile.rs NodeStep: entities which may appear in the action tree. -/
inductive NodeStep where
  | Root
  | Repeat (r : CRepeat)
  | Fire (f : CFire)
  | ChangeSpeed (cs : ChangeSpeed)
  | ChangeDirection (cd : ChangeDirection)
  | Accel (a : Accel)
  | Wait (w : Wait)
  | Vanish

/-! ## Tree and zipper, run/zipper.rs -/

/-- zipper.rs Node. -/
inductive Node (T : Type) where
  | mk (data : T) (children : List (Node T))

def Node.data {T : Type} : Node T → T
  | .mk d _ => d

def Node.children {T : Type} : Node T → List (Node T)
  | .mk _ c => c

/-- zipper.rs Node::is_empty. -/
def Node.is_empty {T : Type} (n : Node T) : Bool :=
  n.children.isEmpty

/-- zipper.rs Node::len. -/
def Node.len {T : Type} (n : Node T) : ℕ :=
  n.children.length

/-- zipper.rs Node::add_child. -/
def Node.add_child {T : Type} (n : Node T) (child : Node T) : Node T :=
  .mk n.data (n.children ++ [child])

/-- Vec::swap_remove: remove index i, moving the last element into the
hole.  None models the out of bounds panic of the source; every call
site guards the index. -/
def swapRemove {α : Type} (l : List α) (i : ℕ) : Option (α × List α) :=
  match l.get? i, l.getLast? with
  | some x, some last => some (x, (l.set i last).dropLast)
  | _, _ => none

/-- Vec::swap of two indices. -/
def listSwap {α : Type} (l : List α) (i j : ℕ) : List α :=
  match l.get? i, l.get? j with
  | some a, some b => (l.set i b).set j a
  | _, _ => l

/-- zipper.rs ParentStatus. -/
inductive ParentStatus where
  | AtRoot
  | Relocated
deriving DecidableEq, Repr

/-- zipper.rs Zipper.  The source stores the parent as an optional boxed
zipper with the child index; that linked shape is represented as a list
of parent frames, innermost first, each a node missing the focused child
plus the index the child came from. -/
structure Zipper (T : Type) where
  node : Node T
  parents : List (Node T × ℕ)

/-- zipper.rs Zipper::new (also Node::zipper). -/
def Zipper.new {T : Type} (n : Node T) : Zipper T :=
  ⟨n, []⟩

/-- zipper.rs Zipper::child: detach child i and refocus on it, pushing
the old zipper as the parent frame.  Out of bounds, where the source
panics, the zipper is returned unchanged; every call site guards i. -/
def Zipper.child {T : Type} (z : Zipper T) (i : ℕ) : Zipper T :=
  match swapRemove z.node.children i with
  | some (c, rest) => ⟨c, (⟨z.node.data, rest⟩, i) :: z.parents⟩
  | none => z

/-- zipper.rs Zipper::parent: pop the parent frame, push the focused
node back into the child slot via push and swap.  The source replaces
its parent field with None and never reinstalls the extracted frames
chain, so the resulting parents list is empty. -/
def Zipper.parent {T : Type} (z : Zipper T) : Zipper T × ParentStatus :=
  match z.parents with
  | [] => (z, .AtRoot)
  | (pnode, idx) :: _rest =>
    let children := pnode.children ++ [z.node]
    let children := listSwap children idx (children.length - 1)
    (⟨⟨pnode.data, children⟩, []⟩, .Relocated)

/-- zipper.rs ZipperIter. -/
structure ZipperIter (T : Type) where
  zipper : Zipper T
  started : Bool
  done : Bool

/-- zipper.rs Zipper::iter. -/
def Zipper.iter {T : Type} (z : Zipper T) : ZipperIter T :=
  ⟨z, false, false⟩

/-- zipper.rs ZipperIter::add_child. -/
def ZipperIter.add_child {T : Type} (it : ZipperIter T) (n : Node T) : ZipperIter T :=
  { it with zipper := ⟨it.zipper.node.add_child n, it.zipper.parents⟩ }

/-- zipper.rs ZipperIter::current. -/
def ZipperIter.current {T : Type} (it : ZipperIter T) : Option T :=
  if it.done then none else some it.zipper.node.data

/-- The inner loop of ZipperIter::next that walks up looking for a next
sibling.  None means iteration is over.  The loop of the source runs at
most twice because Zipper::parent leaves an empty parents list, so any
fuel of at least two is exact; callers pass the frame count plus two. -/
def iterAscend {T : Type} : ℕ → Zipper T → Option (Zipper T)
  | 0, _ => none
  | fuel + 1, z =>
    match z.parents with
    | [] => none
    | (_, idx) :: _ =>
      let next_idx := idx + 1
      let z' := (Zipper.parent z).1
      if next_idx < z'.node.len then
        some (z'.child next_idx)
      else
        iterAscend fuel z'

/-- zipper.rs ZipperIter::next. -/
def ZipperIter.next {T : Type} (it : ZipperIter T) : Option T × ZipperIter T :=
  if it.done then
    (none, it)
  else if it.started then
    if it.zipper.node.is_empty then
      match iterAscend (it.zipper.parents.length + 2) it.zipper with
      | none => (none, { it with done := true })
      | some z' => (some z'.node.data, { it with zipper := z' })
    else
      let z' := it.zipper.child 0
      (some z'.node.data, { it with zipper := z' })
  else
    (some it.zipper.node.data, { it with started := true })

/-- Collect the data values yielded by repeatedly calling next. -/
def iterCollect {T : Type} : ℕ → ZipperIter T → List T
  | 0, _ => []
  | fuel + 1, it =>
    match it.next with
    | (some v, it') => v :: iterCollect fuel it'
    | (none, _) => []

/-! ## Compilation, run/compile.rs and run/util.rs

The two hash maps of the source are modelled by association lists with
the same lookup and entry semantics. -/

/-- The compile time error kinds: util.rs EntityError::Duplicate and
data.rs EntityError::CannotFind.  The wrapper enums of compile.rs carry
no information beyond the leaf error and are flattened.  OutOfFuel is
the embedding artifact for the fuel bound. -/
inductive CompileError where
  | Duplicate (kind : String) (name : String)
  | CannotFind (label : String)
  | OutOfFuel
deriving DecidableEq, Repr

/-- util.rs try_insert: inserting an occupied name is a duplicate error.
The closure argument mirrors the lazily built value of the source. -/
def try_insert {V : Type} (name : String) (map : List (String × V)) (f : Unit → V)
    (kind : String) : Except CompileError (List (String × V)) :=
  match map.lookup name with
  | some _ => .error (.Duplicate kind name)
  | none => .ok (map ++ [(name, f ())])

/-- str starts_with, stated over the character lists so that it
reduces definitionally; same semantics as String.startsWith. -/
def strStartsWith (s pre : String) : Bool :=
  pre.toList.isPrefixOf s.toList

/-- data.rs EntityRef::entity: resolve a reference through a lookup. -/
def EntityRef.entity {T : Type} (r : EntityRef T) (find : String → Option T) :
    Except CompileError T :=
  match r with
  | .Ref ref =>
    match find ref.label with
    | some t => .ok t
    | none => .error (.CannotFind ref.label)
  | .Real t => .ok t

/-- compile.rs Library: names to compiled entities. -/
structure Library where
  actions : List (String × CAction)
  bullets : List (String × CBullet)
  fires : List (String × CFire)

def Library.empty : Library := ⟨[], [], []⟩

/-- compile.rs DataLibrary: names to source entities. -/
structure DataLibrary where
  actions : List (String × DAction)
  bullets : List (String × DBullet)
  fires : List (String × DFire)

def DataLibrary.empty : DataLibrary := ⟨[], [], []⟩

mutual

/-- compile.rs Step::new. -/
def compileStep : ℕ → Library → DataLibrary → DStep →
    Except CompileError (CStep × Library × DataLibrary)
  | 0, _, _, _ => .error .OutOfFuel
  | fuel + 1, lib, dl, step =>
    match step with
    | .ChangeSpeed cs => .ok (.ChangeSpeed cs, lib, dl)
    | .ChangeDirection cd => .ok (.ChangeDirection cd, lib, dl)
    | .Accel a => .ok (.Accel a, lib, dl)
    | .Wait w => .ok (.Wait w, lib, dl)
    | .Vanish => .ok (.Vanish, lib, dl)
    | .Repeat r => do
      let (cr, lib, dl) ← compileRepeat fuel lib dl r
      .ok (.Repeat cr, lib, dl)
    | .Fire fref => do
      let f ← fref.entity (fun n => dl.fires.lookup n)
      let (cf, lib, dl) ← compileFire fuel lib dl f
      .ok (.Fire cf, lib, dl)
    | .Action aref => do
      let a ← aref.entity (fun n => dl.actions.lookup n)
      let (ca, lib, dl) ← compileAction fuel lib dl a
      .ok (.Action ca, lib, dl)

/-- The step list collection inside compile.rs Action::new. -/
def compileSteps : ℕ → Library → DataLibrary → List DStep →
    Except CompileError (List CStep × Library × DataLibrary)
  | 0, _, _, _ => .error .OutOfFuel
  | _ + 1, lib, dl, [] => .ok ([], lib, dl)
  | fuel + 1, lib, dl, s :: rest => do
    let (c, lib, dl) ← compileStep fuel lib dl s
    let (cs, lib, dl) ← compileSteps fuel lib dl rest
    .ok (c :: cs, lib, dl)

/-- compile.rs Action::new: compile the body, then register the label
in the compiled and then the source table. -/
def compileAction : ℕ → Library → DataLibrary → DAction →
    Except CompileError (CAction × Library × DataLibrary)
  | 0, _, _, _ => .error .OutOfFuel
  | fuel + 1, lib, dl, a => do
    let (steps, lib, dl) ← compileSteps fuel lib dl a.steps
    let comp := CAction.mk steps
    match a.label with
    | some name => do
      let acts ← try_insert name lib.actions (fun _ => comp) "action"
      let dacts ← try_insert name dl.actions (fun _ => a) "action"
      .ok (comp, { lib with actions := acts }, { dl with actions := dacts })
    | none => .ok (comp, lib, dl)

/-- Resolving and compiling a list of action references, as done by
Bullet::new and Repeat::new. -/
def compileActionRefs : ℕ → Library → DataLibrary → List (EntityRef DAction) →
    Except CompileError (List CAction × Library × DataLibrary)
  | 0, _, _, _ => .error .OutOfFuel
  | _ + 1, lib, dl, [] => .ok ([], lib, dl)
  | fuel + 1, lib, dl, aref :: rest => do
    let a ← aref.entity (fun n => dl.actions.lookup n)
    let (ca, lib, dl) ← compileAction fuel lib dl a
    let (cas, lib, dl) ← compileActionRefs fuel lib dl rest
    .ok (ca :: cas, lib, dl)

/-- compile.rs Bullet::new. -/
def compileBullet : ℕ → Library → DataLibrary → DBullet →
    Except CompileError (CBullet × Library × DataLibrary)
  | 0, _, _, _ => .error .OutOfFuel
  | fuel + 1, lib, dl, b => do
    let (cacts, lib, dl) ← compileActionRefs fuel lib dl b.actions
    let comp := CBullet.mk b.direction b.speed cacts
    match b.label with
    | some name => do
      let bs ← try_insert name lib.bullets (fun _ => comp) "bullet"
      let dbs ← try_insert name dl.bullets (fun _ => b) "bullet"
      .ok (comp, { lib with bullets := bs }, { dl with bullets := dbs })
    | none => .ok (comp, lib, dl)

/-- compile.rs Fire::new. -/
def compileFire : ℕ → Library → DataLibrary → DFire →
    Except CompileError (CFire × Library × DataLibrary)
  | 0, _, _, _ => .error .OutOfFuel
  | fuel + 1, lib, dl, f => do
    let db ← f.bullet.entity (fun n => dl.bullets.lookup n)
    let (cb, lib, dl) ← compileBullet fuel lib dl db
    let comp := CFire.mk f.direction f.speed cb
    match f.label with
    | some name => do
      let fs ← try_insert name lib.fires (fun _ => comp) "fire"
      let dfs ← try_insert name dl.fires (fun _ => f) "fire"
      .ok (comp, { lib with fires := fs }, { dl with fires := dfs })
    | none => .ok (comp, lib, dl)

/-- compile.rs Repeat::new. -/
def compileRepeat : ℕ → Library → DataLibrary → DRepeat →
    Except CompileError (CRepeat × Library × DataLibrary)
  | 0, _, _, _ => .error .OutOfFuel
  | fuel + 1, lib, dl, r => do
    let (cacts, lib, dl) ← compileActionRefs fuel lib dl r.actions
    .ok (CRepeat.mk r.times cacts, lib, dl)

end

mutual

/-- compile.rs Step::into_node. -/
def stepIntoNode : CStep → Node NodeStep
  | .Repeat r => .mk (.Repeat r) []
  | .Fire f => .mk (.Fire f) []
  | .ChangeSpeed cs => .mk (.ChangeSpeed cs) []
  | .ChangeDirection cd => .mk (.ChangeDirection cd) []
  | .Accel a => .mk (.Accel a) []
  | .Wait w => .mk (.Wait w) []
  | .Vanish => .mk .Vanish []
  | .Action (.mk steps) => .mk .Root (stepsIntoNodes steps)

def stepsIntoNodes : List CStep → List (Node NodeStep)
  | [] => []
  | s :: rest => stepIntoNode s :: stepsIntoNodes rest

end

/-- compile.rs Action::node. -/
def CAction.node (a : CAction) : Node NodeStep :=
  .mk .Root (stepsIntoNodes a.steps)

/-- compile.rs Repeat::new_steps: count concatenated copies of the
action list, each action turned into a node. -/
def CRepeat.new_steps (r : CRepeat) (count : ℕ) : List (Node NodeStep) :=
  ((List.replicate count r.actions).flatten).map (fun a => stepIntoNode (.Action a))

/-- The first pass over the top level element list in BulletML::new:
bullets, fires and non top actions compile immediately for their
registration effect; actions whose label starts with top are deferred
and returned in order. -/
def compileElements : ℕ → Library → DataLibrary → List Element →
    Except CompileError (List DAction × Library × DataLibrary)
  | 0, _, _, _ => .error .OutOfFuel
  | _ + 1, lib, dl, [] => .ok ([], lib, dl)
  | fuel + 1, lib, dl, e :: rest =>
    match e with
    | .Bullet b => do
      let (_, lib, dl) ← compileBullet fuel lib dl b
      compileElements fuel lib dl rest
    | .Fire f => do
      let (_, lib, dl) ← compileFire fuel lib dl f
      compileElements fuel lib dl rest
    | .Action a =>
      match a.label with
      | some lbl =>
        if strStartsWith lbl "top" then do
          let (tops, lib, dl) ← compileElements fuel lib dl rest
          .ok (a :: tops, lib, dl)
        else do
          let (_, lib, dl) ← compileAction fuel lib dl a
          compileElements fuel lib dl rest
      | none => do
        let (_, lib, dl) ← compileAction fuel lib dl a
        compileElements fuel lib dl rest

/-- The second pass of BulletML::new: compile the deferred top actions. -/
def compileTops : ℕ → Library → DataLibrary → List DAction →
    Except CompileError (List CAction × Library × DataLibrary)
  | 0, _, _, _ => .error .OutOfFuel
  | _ + 1, lib, dl, [] => .ok ([], lib, dl)
  | fuel + 1, lib, dl, a :: rest => do
    let (ca, lib, dl) ← compileAction fuel lib dl a
    let (cas, lib, dl) ← compileTops fuel lib dl rest
    .ok (ca :: cas, lib, dl)

/-- compile.rs BulletML: orientation plus the action tree cursor. -/
structure BulletML where
  orientation : Orientation
  steps : ZipperIter NodeStep

/-- compile.rs BulletML::new. -/
def compileBulletML (fuel : ℕ) (b : DBulletML) : Except CompileError BulletML := do
  let (tops, lib, dl) ← compileElements fuel Library.empty DataLibrary.empty b.elements
  let (cacts, _, _) ← compileTops fuel lib dl tops
  let node := cacts.foldl (fun n a => n.add_child a.node) (Node.mk .Root [])
  .ok ⟨b.orientation, (Zipper.new node).iter⟩

/-! ## Runner, run/runner.rs

The BulletManager of the source is split into a record of pure query
values (the expression context included) and an event list collecting
the side effecting calls, in call order. -/

/-- The host facing queries of the BulletManager contract together with
the expression context.  rand is modelled as a fixed value. -/
structure Manager where
  turn : ℕ
  direction : Value
  aim_direction : Value
  speed : Value
  speed_x : Value
  speed_y : Value
  default_speed : Value
  rank : Value
  rand : Value
  get : String → Option Value

/-- The side effecting BulletManager calls issued by the runner. -/
inductive Event where
  | NewSimple (direction : Value) (speed : Value)
  | New (direction : Value) (speed : Value)
  | Vanish
  | ChangeDirection (degrees : Value)
  | ChangeSpeed (speed : Value)
  | AccelX (amount : Value)
  | AccelY (amount : Value)
deriving DecidableEq, Repr

/-- Runtime error kinds surfaced by update, plus the fuel artifact. -/
inductive RunError where
  | UndefinedVariable (name : String)
  | OutOfFuel
  | Unreachable
deriving DecidableEq, Repr

/-- expression/mod.rs Expression::eval_expr against a manager context. -/
def evalExpr (m : Manager) : Expr → Except RunError Value
  | .Unary o e => (evalExpr m e).map o.eval
  | .Binary o l r => do
    let lv ← evalExpr m l
    let rv ← evalExpr m r
    .ok (o.eval lv rv)
  | .Float f => .ok f
  | .Var v =>
    match v with
    | .Rank => .ok m.rank
    | .Rand => .ok m.rand
    | .Named n =>
      match m.get n with
      | some q => .ok q
      | none => .error (.UndefinedVariable n)

/-- expression/mod.rs Expression::eval. -/
def Expression.eval (e : Expression) (m : Manager) : Except RunError Value :=
  evalExpr m e.expr

/-- data.rs Term::eval. -/
def Term.eval (t : Term) (m : Manager) : Except RunError Value :=
  t.value.eval m

/-- f32 max as used by the .max(0.) duration clamp; stated with an
explicit comparison so that it reduces definitionally.  Same value as
max on the rationals. -/
def fmax (x y : Value) : Value :=
  if x <= y then y else x

/-- runner.rs Function. -/
structure Function where
  min : ℕ
  max : ℕ
  start : Value
  endVal : Value
  step : Value
deriving DecidableEq, Repr

/-- runner.rs Function::new: step is the slope (end - start) over the
turn count; for an empty domain the source divides by zero, which the
rational model sends to zero (the step of an empty domain function is
never read, see the C10 theorem). -/
def Function.new (min max : ℕ) (start endVal : Value) : Function :=
  ⟨min, max, start, endVal, (endVal - start) / ((max - min : ℕ) : Value)⟩

/-- runner.rs Function::call.  The u32 subtraction is only reached with
x at least min, where truncated subtraction is exact. -/
def Function.call (f : Function) (x : ℕ) : Value :=
  f.start + f.step * ((x - f.min : ℕ) : Value)

/-- runner.rs Function::is_in_domain. -/
def Function.is_in_domain (f : Function) (x : ℕ) : Bool :=
  f.min ≤ x && x < f.max

/-- runner.rs Function::last. -/
def Function.last (f : Function) : Value :=
  f.endVal

/-- runner.rs State (the manager is passed separately). -/
structure State where
  orientation : Orientation
  prev_dir : Option Value
  change_dir : Option Function
  prev_speed : Option Value
  change_speed : Option Function
  accel_x : Option Function
  accel_y : Option Function
  next : Option ℕ

/-- runner.rs State::new. -/
def State.new (orientation : Orientation) : State :=
  ⟨orientation, none, none, none, none, none, none, none⟩

/-- runner.rs State::update_function. -/
def update_function (f : Function) (turn : ℕ) : Bool × Value :=
  if f.is_in_domain turn then (true, f.call turn) else (false, f.last)

/-- One expansion of the run_function macro: emit the value for an
occupied slot, clearing it once the domain is left. -/
def runFnSlot (slot : Option Function) (turn : ℕ) (mk : Value → Event) :
    Option Function × List Event × Bool :=
  match slot with
  | some f =>
    let (cont, v) := update_function f turn
    (if cont then some f else none, [mk v], true)
  | none => (none, [], false)

/-- runner.rs State::update_functions: direction, speed, accel x then
accel y, in that order. -/
def update_functions (s : State) (m : Manager) : State × List Event × Bool :=
  let (dSlot, dEvs, dUpd) := runFnSlot s.change_dir m.turn Event.ChangeDirection
  let (sSlot, sEvs, sUpd) := runFnSlot s.change_speed m.turn Event.ChangeSpeed
  let (xSlot, xEvs, xUpd) := runFnSlot s.accel_x m.turn Event.AccelX
  let (ySlot, yEvs, yUpd) := runFnSlot s.accel_y m.turn Event.AccelY
  ({ s with change_dir := dSlot, change_speed := sSlot, accel_x := xSlot, accel_y := ySlot },
    dEvs ++ sEvs ++ xEvs ++ yEvs,
    dUpd || sUpd || xUpd || yUpd)

/-- runner.rs Status. -/
inductive Status where
  | End
  | Continue
  | NewSteps (steps : List (Node NodeStep))

/-- runner.rs State::target_direction. -/
def target_direction (s : State) (m : Manager) (kind : DirectionKind) (degrees : Value) :
    Value :=
  let dir :=
    match kind with
    | .Aim => degrees + m.aim_direction
    | .Absolute => s.orientation.up degrees
    | .Relative => degrees + m.direction
    | .Sequence =>
      match s.prev_dir with
      | some prev_dir => degrees + prev_dir
      | none => m.aim_direction
  rustRem dir 360

/-- runner.rs State::target_direction_data. -/
def target_direction_data (s : State) (m : Manager) (direction : Direction) :
    Except RunError Value :=
  (direction.degrees.eval m).map (fun degrees => target_direction s m direction.kind degrees)

/-- runner.rs State::target_speed. -/
def target_speed (s : State) (m : Manager) (kind : Change) (value : Value) : Value :=
  match kind with
  | .Absolute => value
  | .Relative => value + m.speed
  | .Sequence =>
    match s.prev_speed with
    | some prev_speed => value + prev_speed
    | none => 1

/-- runner.rs State::target_speed_data. -/
def target_speed_data (s : State) (m : Manager) (speed : Speed) : Except RunError Value :=
  (speed.change.eval m).map (fun change => target_speed s m speed.kind change)

/-- runner.rs State::run_change_direction. -/
def run_change_direction (s : State) (m : Manager) (cd : ChangeDirection) :
    Except RunError (State × List Event × Status) := do
  let duration0 ← cd.value.eval m
  let duration := fmax duration0 0
  let direction := cd.direction
  let cur_dir := m.direction
  let degrees ← direction.degrees.eval m
  let final_dir :=
    if direction.kind = .Sequence then duration * degrees + cur_dir
    else target_direction s m direction.kind degrees
  let turn := m.turn
  .ok ({ s with change_dir := some (Function.new turn (turn + ceilU32 duration) cur_dir final_dir) },
    [], .Continue)

/-- runner.rs State::run_change_speed. -/
def run_change_speed (s : State) (m : Manager) (cs : ChangeSpeed) :
    Except RunError (State × List Event × Status) := do
  let duration0 ← cs.value.eval m
  let duration := fmax duration0 0
  let speed := cs.speed
  let cur_speed := m.speed
  let change ← speed.change.eval m
  let final_speed :=
    if speed.kind = .Sequence then duration * change + cur_speed
    else target_speed s m speed.kind change
  let turn := m.turn
  .ok ({ s with change_speed := some (Function.new turn (turn + ceilU32 duration) cur_speed final_speed) },
    [], .Continue)

/-- runner.rs State::speed_func, for either acceleration channel given
as its Change kind and change expression. -/
def speed_func (m : Manager) (accel : Option (Change × Expression)) (init_speed : Value)
    (turn : ℕ) (duration : Value) : Except RunError (Option Function) :=
  match accel with
  | none => .ok none
  | some (kind, changeE) => do
    let change ← changeE.eval m
    let final_speed := kind.modify change init_speed duration
    .ok (some (Function.new turn (turn + ceilU32 duration) init_speed final_speed))

/-- runner.rs State::run_accel: in horizontal orientation the script
channels swap axes. -/
def run_accel (s : State) (m : Manager) (a : Accel) :
    Except RunError (State × List Event × Status) := do
  let duration0 ← a.duration.eval m
  let duration := fmax duration0 0
  let turn := m.turn
  match s.orientation with
  | .Horizontal => do
    let ax ← speed_func m (a.vertical.map (fun v => (v.kind, v.change))) m.speed_x turn duration
    let ay ← speed_func m (a.horizontal.map (fun h => (h.kind, h.change))) m.speed_y turn duration
    .ok ({ s with accel_x := ax, accel_y := ay }, [], .Continue)
  | _ => do
    let ax ← speed_func m (a.horizontal.map (fun h => (h.kind, h.change))) m.speed_x turn duration
    let ay ← speed_func m (a.vertical.map (fun v => (v.kind, v.change))) m.speed_y turn duration
    .ok ({ s with accel_x := ax, accel_y := ay }, [], .Continue)

/-- runner.rs State::run_fire: fire level values are overridden by
bullet level values; missing values fall back to the aim direction and
the default speed; both are recorded as the previous direction and
speed before the new bullet call is issued. -/
def run_fire (s : State) (m : Manager) (fire : CFire) :
    Except RunError (State × List Event × Status) := do
  let fire_dir ←
    match fire.direction with
    | some d => (target_direction_data s m d).map some
    | none => pure none
  let fire_speed ←
    match fire.speed with
    | some sp => (target_speed_data s m sp).map some
    | none => pure none
  let bullet := fire.bullet
  let bullet_dir ←
    match bullet.direction with
    | some d => (target_direction_data s m d).map some
    | none => pure none
  let bullet_speed ←
    match bullet.speed with
    | some sp => (target_speed_data s m sp).map some
    | none => pure none
  let dir := (bullet_dir.or fire_dir).getD m.aim_direction
  let speed := (bullet_speed.or fire_speed).getD m.default_speed
  let s := { s with prev_dir := some dir, prev_speed := some speed }
  if bullet.actions.isEmpty then
    .ok (s, [.NewSimple dir speed], .Continue)
  else
    .ok (s, [.New dir speed], .Continue)

/-- runner.rs State::run_repeat count computation.  The source tests
times.is_nan() before comparing; NaN has no rational counterpart, so
the flag is explicit.  The cast truncates toward zero. -/
def repeatCount (is_nan : Bool) (times : Value) : ℕ :=
  if is_nan then 0
  else if times < 1 then 0
  else (ratTrunc times).toNat

/-- runner.rs State::run_repeat. -/
def run_repeat (s : State) (m : Manager) (r : CRepeat) :
    Except RunError (State × List Event × Status) := do
  let times ← r.times.value.eval m
  let count := repeatCount false times
  .ok (s, [], .NewSteps (r.new_steps count))

/-- runner.rs State::run_vanish. -/
def run_vanish (s : State) : State × List Event × Status :=
  (s, [.Vanish], .End)

/-- runner.rs State::run_wait.  The frames expression is evaluated only
when no stored marker exists; the marker is stored exactly when End is
returned. -/
def run_wait (s : State) (m : Manager) (w : Wait) :
    Except RunError (State × List Event × Status) := do
  let next ←
    match s.next with
    | some n => pure n
    | none => do
      let frames ← w.frames.eval m
      pure (m.turn + ceilU32 frames)
  if next < m.turn then
    .ok ({ s with next := some next }, [], .End)
  else
    .ok ({ s with next := none }, [], .Continue)

/-- The node dispatch of Runner::update. -/
def run_node (s : State) (m : Manager) (ns : NodeStep) :
    Except RunError (State × List Event × Status) :=
  match ns with
  | .Root => .ok (s, [], .Continue)
  | .Repeat r => run_repeat s m r
  | .Fire f => run_fire s m f
  | .ChangeSpeed cs => run_change_speed s m cs
  | .ChangeDirection cd => run_change_direction s m cd
  | .Accel a => run_accel s m a
  | .Wait w => run_wait s m w
  | .Vanish => .ok (run_vanish s)

/-- The walk loop of Runner::update: interpret the focused node, append
any NewSteps children at the focus, stop on End or at the end of the
iteration.  Unreachable mirrors the unreachable branch of the source. -/
def updateLoop : ℕ → State → Manager → ZipperIter NodeStep → List Event → Bool →
    Except RunError (State × ZipperIter NodeStep × List Event × Bool)
  | 0, _, _, _, _, _ => .error .OutOfFuel
  | fuel + 1, s, m, it, events, updated =>
    if it.done then .ok (s, it, events, updated)
    else do
      let (s', evs, status) ← run_node s m it.zipper.node.data
      let (it', status') :=
        match status with
        | .NewSteps steps => (steps.foldl ZipperIter.add_child it, Status.Continue)
        | _ => (it, status)
      match status' with
      | .End => .ok (s', it', events ++ evs, true)
      | .Continue => updateLoop fuel s' m (it'.next).2 (events ++ evs) true
      | .NewSteps _ => .error .Unreachable

/-- runner.rs Runner. -/
structure Runner where
  state : State
  bulletml : BulletML

/-- runner.rs Runner::new: compile the script and initialise the state
with the orientation of the script. -/
def Runner.new (fuel : ℕ) (bml : DBulletML) : Except CompileError Runner := do
  let c ← compileBulletML fuel bml
  .ok ⟨State.new c.orientation, c⟩

/-- runner.rs Runner::update: run the continuous update functions, then
walk the cursor; the events record the manager calls in order. -/
def Runner.update (fuel : ℕ) (r : Runner) (m : Manager) :
    Except RunError (Runner × List Event × Bool) := do
  let (s1, evs, upd) := update_functions r.state m
  let (s2, it2, evs2, upd2) ← updateLoop fuel s1 m r.bulletml.steps evs upd
  .ok (⟨s2, ⟨r.bulletml.orientation, it2⟩⟩, evs2, upd2)

/-! ## Concrete inputs and trace harness for the claims -/

/-- An already folded literal expression. -/
def eFloat (q : Value) : Expression :=
  ⟨Expr.Float q⟩

/-- A host whose aim direction is 42, current and default speeds 1 and
3, at the given turn. -/
def mgrAt (t : ℕ) : Manager :=
  ⟨t, 0, 42, 1, 0, 0, 3, 0, 0, fun _ => none⟩

/-- Compile a script and run one update per listed manager, collecting
the events of every tick. -/
def runTraceAux (fuelU : ℕ) : Runner → List Manager → Option (List (List Event))
  | _, [] => some []
  | r, m :: rest =>
    match r.update fuelU m with
    | .error _ => none
    | .ok (r', evs, _) => (runTraceAux fuelU r' rest).map (evs :: ·)

def runTrace (fuelC fuelU : ℕ) (bml : DBulletML) (ms : List Manager) :
    Option (List (List Event)) :=
  match Runner.new fuelC bml with
  | .error _ => none
  | .ok r => runTraceAux fuelU r ms

/-- The S2 script: one top action with a wait of three frames then a
vanish. -/
def waitVanishScript : DBulletML :=
  ⟨.None, [.Action (.mk (some "top") [.Wait ⟨eFloat 3⟩, .Vanish])]⟩

/-- The S4 sequence speed change step: kind sequence, change one half,
duration ten. -/
def csSeqStep : ChangeSpeed :=
  ⟨⟨.Sequence, eFloat (1/2)⟩, ⟨eFloat 10⟩⟩

/-- The S4 script: one top action holding the sequence speed change. -/
def csScript : DBulletML :=
  ⟨.None, [.Action (.mk (some "top") [.ChangeSpeed csSeqStep])]⟩

/-- The runner state right after the S4 install at turn t. -/
def seqSpeedState (t : ℕ) : State :=
  { State.new .None with change_speed := some (Function.new t (t + 10) 1 6) }

/-- Two named actions referencing each other by label: the A to B to A
cycle of the cycle claim. -/
def cycleScript (la lb : String) : DBulletML :=
  ⟨.None, [.Action (.mk (some la) [.Action (refTo lb)]),
           .Action (.mk (some lb) [.Action (refTo la)])]⟩

/-- Two top level actions sharing one label. -/
def dupActions : DBulletML :=
  ⟨.None, [.Action (.mk (some "x") []), .Action (.mk (some "x") [])]⟩

/-- Two top level bullets sharing one label. -/
def dupBullets : DBulletML :=
  ⟨.None, [.Bullet (.mk (some "x") none none []), .Bullet (.mk (some "x") none none [])]⟩

/-- Two top level fires sharing one label. -/
def dupFires : DBulletML :=
  ⟨.None,
    [.Fire (.mk (some "x") none none (.Real (.mk none none none []))),
     .Fire (.mk (some "x") none none (.Real (.mk none none none [])))]⟩

/-- A fire whose direction is sequence kind with symbolic degrees and
whose bullet supplies nothing. -/
def c5Fire (d : Value) : CFire :=
  .mk (some ⟨.Sequence, ⟨.Float d⟩⟩) none (.mk none none [])

/-- The pre order test tree of the zipper claim: root 0 with children
1, 2 (children 3 and 4) and 5. -/
def c9Tree : Node ℕ :=
  .mk 0 [.mk 1 [], .mk 2 [.mk 3 [], .mk 4 []], .mk 5 []]

/-- A small tree whose zipper can be focused one level down. -/
def c8Tree : Node ℕ :=
  .mk 0 [.mk 1 [.mk 2 []], .mk 3 []]

/-- The zipper focused on child 0 of the root: its parent chain holds
one frame. -/
def c8Z : Zipper ℕ :=
  (Zipper.new c8Tree).child 0

/-- A repeat of three times over one single step action. -/
def c4Rep : CRepeat :=
  .mk ⟨eFloat 3⟩ [.mk [.Vanish]]

/-! ## Shared lemmas -/

/-- Folding a variable free expression yields the literal of its
arithmetic result. -/
theorem constant_fold_of_varFree (e : Expr) (h : e.varFree = true) :
    e.constant_fold = .Float e.evalConst := by
  induction e with
  | Float v => rfl
  | Var v => simp [Expr.varFree] at h
  | Unary o e ih =>
    simp only [Expr.varFree] at h
    simp [Expr.constant_fold, ih h, Expr.constant_value, Expr.evalConst]
  | Binary o l r ihl ihr =>
    simp only [Expr.varFree, Bool.and_eq_true] at h
    simp [Expr.constant_fold, ihl h.1, ihr h.2, Expr.constant_value, Expr.evalConst]

/-- Evaluating a variable free expression in any context succeeds with
its arithmetic result. -/
theorem evalExpr_of_varFree (m : Manager) (e : Expr) (h : e.varFree = true) :
    evalExpr m e = .ok e.evalConst := by
  induction e with
  | Float v => rfl
  | Var v => simp [Expr.varFree] at h
  | Unary o e ih =>
    simp only [Expr.varFree] at h
    simp [evalExpr, ih h, Expr.evalConst, Except.map]
  | Binary o l r ihl ihr =>
    simp only [Expr.varFree, Bool.and_eq_true] at h
    simp only [evalExpr, ihl h.1, ihr h.2, Expr.evalConst]
    rfl

/-- Pushing a list of children through add_child appends them in order
and keeps the node data. -/
theorem foldl_add_child (it : ZipperIter NodeStep) (steps : List (Node NodeStep)) :
    (steps.foldl ZipperIter.add_child it).zipper.node.children =
      it.zipper.node.children ++ steps ∧
    (steps.foldl ZipperIter.add_child it).zipper.node.data = it.zipper.node.data := by
  induction steps generalizing it with
  | nil => simp
  | cons n rest ih =>
    have h := ih (it.add_child n)
    simp only [List.foldl_cons]
    rw [h.1, h.2]
    cases it with
    | mk z st dn =>
      cases z with
      | mk nd ps =>
        cases nd with
        | mk d cs =>
          simp [ZipperIter.add_child, Node.add_child, Node.children, Node.data]

/-- The in domain branch of the update function, with the domain test
as a proposition. -/
theorem update_function_in (f : Function) (x : ℕ) (h1 : f.min ≤ x) (h2 : x < f.max) :
    update_function f x = (true, f.call x) := by
  have hd : f.is_in_domain x = true := by
    simp [Function.is_in_domain]
    omega
  simp [update_function, hd]

/-- The out of domain branch of the update function. -/
theorem update_function_out (f : Function) (x : ℕ) (h : ¬ (f.min ≤ x ∧ x < f.max)) :
    update_function f x = (false, f.endVal) := by
  have hd : f.is_in_domain x = false := by
    simp [Function.is_in_domain]
    omega
  simp [update_function, hd, Function.last]

/-! ## Claim theorems -/

/-- C1: the spec claims that on first interpretation of a Wait the
runner stores turn plus ceil frames and returns End, so that for the
top action wait 3 then vanish nothing happens at tick 0 and vanish is
called at tick 4.  The code computes next as a value that is never
below the current turn, so the comparison next less than turn fails,
the marker is cleared and Continue is returned: the wait never pauses.
Evaluated at the failing input: run_wait at turn 0 with frames 3
returns Continue with no stored marker, and the full runner calls
vanish at tick 0 already, then again at tick 4. -/
theorem c1_wait_never_pauses :
    run_wait (State.new .None) (mgrAt 0) ⟨eFloat 3⟩ =
      .ok (State.new .None, [], .Continue) ∧
    runTrace 32 64 waitVanishScript [mgrAt 0, mgrAt 4] =
      some [[.Vanish], [.Vanish]] :=
  ⟨rfl, rfl⟩

/-- C6: registering one label twice for one entity kind is a duplicate
error carrying the kind and the name, and it fails the whole
compilation, for actions, bullets and fires alike. -/
theorem c6_duplicate_labels :
    (∀ (V : Type) (name : String) (map : List (String × V)) (v₀ : V) (f : Unit → V)
        (kind : String), map.lookup name = some v₀ →
        try_insert name map f kind = .error (.Duplicate kind name)) ∧
    compileBulletML 32 dupActions = .error (.Duplicate "action" "x") ∧
    compileBulletML 32 dupBullets = .error (.Duplicate "bullet" "x") ∧
    compileBulletML 32 dupFires = .error (.Duplicate "fire" "x") := by
  refine ⟨?_, rfl, rfl, rfl⟩
  intro V name map v₀ f kind h
  simp [try_insert, h]

/-- C6 witness: the duplicate branch of try_insert at a concrete map. -/
theorem c6_duplicate_labels_witness :
    try_insert "x" [("x", (1 : ℕ))] (fun _ => (2 : ℕ)) "action" =
      .error (.Duplicate "action" "x") :=
  c6_duplicate_labels.1 ℕ "x" [("x", 1)] 1 (fun _ => 2) "action" rfl

/-- C8: the spec claims child i then parent restores the focused node
exactly and that the zipper plus its parent chain always reconstructs
the original tree.  The node is indeed restored, children order
included, but Zipper::parent never reinstalls the extracted frames
chain: starting from a zipper focused one level below the root, the
round trip returns an empty parent chain where the original had one
frame, so the original tree is no longer reconstructible. -/
theorem c8_parent_drops_chain :
    ((c8Z.child 0).parent).1.node = c8Z.node ∧
    ((c8Z.child 0).parent).1.parents = [] ∧
    c8Z.parents = [(Node.mk 0 [Node.mk 3 []], 0)] :=
  ⟨rfl, rfl, rfl⟩

/-- C7: every expression string that parses successfully to a variable
free AST yields, after the fold performed at parse time, a single Float
literal whose value is the arithmetic result of the expression, and
evaluating that AST in any context returns the same value. -/
theorem c7_constant_folding (s : String) (a : Expr)
    (hp : grammarParse s = some a) (hv : a.varFree = true) :
    Expression.parse s = some ⟨.Float a.evalConst⟩ ∧
    ∀ m : Manager, evalExpr m a = .ok a.evalConst := by
  constructor
  · simp [Expression.parse, hp, constant_fold_of_varFree a hv]
  · intro m
    exact evalExpr_of_varFree m a hv

/-- C7 witness: the precedence test string of the repository reduces to
the literal five. -/
theorem c7_constant_folding_witness :
    Expression.parse "1+2*2" = some ⟨.Float 5⟩ := by
  have h := c7_constant_folding "1+2*2"
    (.Binary .Add (.Float 1) (.Binary .Mul (.Float 2) (.Float 2))) rfl rfl
  have hv : (Expr.Binary .Add (.Float 1) (.Binary .Mul (.Float 2) (.Float 2))).evalConst = 5 := by
    norm_num [Expr.evalConst, BinaryOp.eval]
  rw [hv] at h
  exact h.1

/-- C3 counterexample: the spec claims a cycle of named actions, each
referencing the other by label, compiles successfully.  It does not:
compilation of the first action resolves its reference through the
source table, which registers a label only after the body of its entity
has compiled, so the cycle is unresolvable. -/
theorem c3_counterexample :
    (compileBulletML 32 (cycleScript "a" "b")).isOk = false :=
  rfl

/-- C3 amended: two actions referencing each other by label fail to
compile with the cannot find error naming the first unresolved label,
for any labels that do not make the first action top level: labels are
registered only after the body compiles, so no cyclic reference ever
resolves and there is no compiled result cache that could break the
cycle. -/
theorem c3_cycle_is_error (la lb : String) (h : strStartsWith la "top" = false) :
    compileBulletML 32 (cycleScript la lb) = .error (.CannotFind lb) := by
  simp [compileBulletML, cycleScript, compileElements, h, compileAction, compileSteps,
    compileStep, EntityRef.entity, refTo, DAction.label, DAction.steps,
    DataLibrary.empty, Library.empty, Bind.bind, Except.bind]

/-- C3 witness: the amended statement at the concrete labels a and b. -/
theorem c3_cycle_is_error_witness :
    compileBulletML 32 (cycleScript "a" "b") = .error (.CannotFind "b") :=
  c3_cycle_is_error "a" "b" rfl

/-- C9: the spec claims pre order iteration of the tree 0 with children
1, 2 (children 3, 4) and 5 yields 0 1 2 3 4 5 then None.  Because
Zipper::parent drops the remaining parent chain, the walk up from node
4 believes node 2 is the root and iteration ends: node 5 is never
yielded. -/
theorem c9_preorder_drops_sibling :
    iterCollect 10 ((Zipper.new c9Tree).iter) = [0, 1, 2, 3, 4] :=
  rfl

/-- C2 counterexample: the claim asserts change_speed is called at the
installing tick t with the starting value 1.  In the runner the update
functions run before the node walk, so the tick that installs the
function issues no manager call at all: the full trace of tick zero for
the sequence speed script is the empty call list. -/
theorem c2_counterexample :
    runTrace 32 64 csScript [mgrAt 0] = some [[]] :=
  rfl

/-- C2 amended: interpreting the sequence speed change of one half over
ten at turn t with current speed one installs the linear function from
turn t to t plus ten interpolating one to six; the update function
yields start plus step times the offset inside the half open domain and
the stored end outside it; querying the slot at turns t to t plus nine
yields 1, 1.5 up to 5.5 while keeping the slot, and at t plus ten the
slot clears after emitting 6.  In the per tick runner flow the function
phase precedes the install, so the value 1 at turn t itself is never
emitted to the manager: calls begin at t plus one (see the
counterexample). -/
theorem c2_change_speed_sequence :
    (∀ (f : Function) (x : ℕ),
        (f.is_in_domain x = true →
          update_function f x = (true, f.start + f.step * ((x - f.min : ℕ) : Value))) ∧
        (f.is_in_domain x = false → update_function f x = (false, f.endVal))) ∧
    (∀ (t : ℕ) (m : Manager),
        run_change_speed (State.new .None) { m with turn := t, speed := 1 } csSeqStep =
          .ok (seqSpeedState t, [], .Continue)) ∧
    (∀ (t k : ℕ) (m : Manager), k < 10 →
        update_functions (seqSpeedState t) { m with turn := t + k } =
          (seqSpeedState t, [.ChangeSpeed (1 + (k : Value) / 2)], true)) ∧
    (∀ (t : ℕ) (m : Manager),
        update_functions (seqSpeedState t) { m with turn := t + 10 } =
          ({ seqSpeedState t with change_speed := none }, [.ChangeSpeed 6], true)) := by
  refine ⟨?_, ?_, ?_, ?_⟩
  · intro f x
    constructor
    · intro h
      simp [update_function, h, Function.call]
    · intro h
      simp [update_function, h, Function.last]
  · intro t m
    have h10 : fmax (10 : Value) 0 = 10 := by norm_num [fmax]
    have hc : ceilU32 (10 : Value) = 10 := by
      norm_num [ceilU32]
      rfl
    simp [run_change_speed, csSeqStep, eFloat, Term.eval, Expression.eval, evalExpr,
      Bind.bind, Except.bind, h10, hc, seqSpeedState, State.new, target_speed,
      Function.new, Function.mk.injEq]
    norm_num
  · intro t k m hk
    have hin := update_function_in (Function.new t (t + 10) 1 6) (t + k)
      (by simp [Function.new]) (by simp [Function.new]; omega)
    have hcall : (Function.new t (t + 10) 1 6).call (t + k) = 1 + (k : Value) / 2 := by
      simp only [Function.call, Function.new, Nat.add_sub_cancel_left]
      push_cast
      ring
    rw [hcall] at hin
    simp [update_functions, seqSpeedState, State.new, runFnSlot, hin]
  · intro t m
    have hout := update_function_out (Function.new t (t + 10) 1 6) (t + 10)
      (by simp [Function.new])
    have hend : (Function.new t (t + 10) 1 6).endVal = 6 := rfl
    rw [hend] at hout
    simp [update_functions, seqSpeedState, State.new, runFnSlot, hout]

/-- C2 witness: the slot query at offset three emits two and a half. -/
theorem c2_change_speed_sequence_witness :
    update_functions (seqSpeedState 0) { mgrAt 0 with turn := 0 + 3 } =
      (seqSpeedState 0, [.ChangeSpeed (5/2)], true) := by
  have h := c2_change_speed_sequence.2.2.1 0 3 (mgrAt 0) (by decide)
  norm_num at h
  exact h

/-- C4: a NaN times value or a value below one yields a count of zero;
a value of at least one is truncated toward zero, which for positive
values is the floor, never a rounding; the repeat produces exactly
count concatenated copies of its action list as NewSteps; and the
runner appends NewSteps in order as children of the current node. -/
theorem c4_repeat_semantics :
    (∀ times : Value, repeatCount true times = 0) ∧
    (∀ times : Value, times < 1 → repeatCount false times = 0) ∧
    (∀ times : Value, 1 ≤ times → (repeatCount false times : ℤ) = ⌊times⌋) ∧
    (∀ r : CRepeat, r.new_steps 0 = [] ∧ ∀ count : ℕ,
        r.new_steps (count + 1) =
          r.actions.map (fun a => stepIntoNode (.Action a)) ++ r.new_steps count) ∧
    (∀ (s : State) (m : Manager) (r : CRepeat) (τ : Value),
        evalExpr m r.times.value.expr = .ok τ →
        run_repeat s m r = .ok (s, [], .NewSteps (r.new_steps (repeatCount false τ)))) ∧
    (∀ (it : ZipperIter NodeStep) (steps : List (Node NodeStep)),
        (steps.foldl ZipperIter.add_child it).zipper.node.children =
          it.zipper.node.children ++ steps ∧
        (steps.foldl ZipperIter.add_child it).zipper.node.data = it.zipper.node.data) := by
  refine ⟨?_, ?_, ?_, ?_, ?_, foldl_add_child⟩
  · intro times
    simp [repeatCount]
  · intro times h
    simp [repeatCount, h]
  · intro times h
    have h1 : ¬ times < 1 := not_lt.mpr h
    have h0 : ¬ times < 0 := by
      intro h'
      linarith
    simp only [repeatCount, ratTrunc, if_neg h1, if_neg h0, Bool.false_eq_true, if_false]
    exact Int.toNat_of_nonneg (Int.floor_nonneg.mpr (le_trans zero_le_one h))
  · intro r
    constructor
    · simp [CRepeat.new_steps]
    · intro count
      simp [CRepeat.new_steps, List.replicate_succ]
  · intro s m r τ h
    simp [run_repeat, Expression.eval, h, Bind.bind, Except.bind]

/-- C4 witness: repeat three times over a single action produces three
copies, and seven halves truncates to three. -/
theorem c4_repeat_semantics_witness :
    run_repeat (State.new .None) (mgrAt 0) c4Rep =
      .ok (State.new .None, [], .NewSteps (c4Rep.new_steps 3)) ∧
    (repeatCount false (7/2) : ℤ) = 3 := by
  constructor
  · have h := c4_repeat_semantics.2.2.2.2.1 (State.new .None) (mgrAt 0) c4Rep 3 rfl
    simpa using h
  · have h := c4_repeat_semantics.2.2.1 (7/2) (by norm_num)
    rw [h]
    norm_num

/-- C5: for a fire whose direction has kind sequence and whose bullet
supplies neither direction nor speed, the first fire with no recorded
previous direction uses the aim direction reduced modulo 360 with the
degrees ignored, records it, and a second fire with the same step uses
degrees plus the recorded direction, reduced modulo 360. -/
theorem c5_sequence_fire_direction (o : Orientation) (m : Manager) (d : Value) :
    run_fire (State.new o) m (c5Fire d) =
      .ok ({ State.new o with
              prev_dir := some (rustRem m.aim_direction 360),
              prev_speed := some m.default_speed },
        [.NewSimple (rustRem m.aim_direction 360) m.default_speed], .Continue) ∧
    run_fire { State.new o with
                prev_dir := some (rustRem m.aim_direction 360),
                prev_speed := some m.default_speed } m (c5Fire d) =
      .ok ({ State.new o with
              prev_dir := some (rustRem (d + rustRem m.aim_direction 360) 360),
              prev_speed := some m.default_speed },
        [.NewSimple (rustRem (d + rustRem m.aim_direction 360) 360) m.default_speed],
        .Continue) :=
  ⟨rfl, rfl⟩

/-- C10: a function whose domain is empty because its bounds coincide
never evaluates its interpolation: the update emits exactly the stored
end value, independent of the step field, and the slot clears so that
exactly one callback with the exact final value occurs. -/
theorem c10_zero_length_function :
    (∀ (f : Function) (x : ℕ), f.min = f.max → update_function f x = (false, f.endVal)) ∧
    (∀ (f : Function) (x : ℕ) (v : Value), f.min = f.max →
        update_function { f with step := v } x = update_function f x) ∧
    (∀ (mn : ℕ) (st ev : Value) (x : ℕ),
        update_function (Function.new mn mn st ev) x = (false, ev)) ∧
    (∀ (s : State) (m : Manager) (f : Function), f.min = f.max →
        s.change_dir = none → s.accel_x = none → s.accel_y = none →
        s.change_speed = some f →
        update_functions s m = ({ s with change_speed := none }, [.ChangeSpeed f.endVal], true) ∧
        update_functions { s with change_speed := none } m =
          ({ s with change_speed := none }, [], false)) := by
  refine ⟨?_, ?_, ?_, ?_⟩
  · intro f x h
    exact update_function_out f x (by omega)
  · intro f x v h
    rw [update_function_out ({ f with step := v }) x (by simp; omega),
      update_function_out f x (by omega)]
  · intro mn st ev x
    have h := update_function_out (Function.new mn mn st ev) x (by simp [Function.new])
    simpa [Function.new] using h
  · intro s m f h hcd hax hay hcs
    obtain ⟨so, pd, cd, ps, cs, ax, ay, nx⟩ := s
    simp only at hcd hax hay hcs
    subst hcd hax hay hcs
    have hout := update_function_out f m.turn (by omega)
    constructor
    · simp [update_functions, runFnSlot, hout]
    · simp [update_functions, runFnSlot]

/-- C10 witness: a zero length function emits its end value once. -/
theorem c10_zero_length_function_witness :
    update_function (Function.new 5 5 1 7) 9 = (false, 7) := by
  have h := c10_zero_length_function.1 (Function.new 5 5 1 7) 9 rfl
  simpa using h

end Bulletml
